import Mathlib

/-!
Shallow embedding of `nixos-hydra-upgrade`, a NixOS flake system upgrader
that promotes Hydra CI builds to a running host.

The repository's core is the `Run` closure of `NewRootCmd` in `cmd/root.go`
(the orchestrator) and `nix.GetFlakeMetadata` (the metadata provider).
External effects (the Hydra HTTP API, the `nix flake metadata` subprocess,
`ping`, `nixos-rebuild`, `reboot`) are modelled as an environment oracle: the
orchestrator is embedded as a pure function from the configuration and that
oracle to the ordered list of external calls it performs plus its terminal
outcome.
-/

namespace NixosHydraUpgrade

/-- A JSON value, as decoded by Go's `encoding/json`.  Numbers are restricted
to integers, which is all the `FlakeMetadata` struct can hold. -/
inductive Json where
  | null
  | bool (b : Bool)
  | num (n : Int)
  | str (s : String)
  | arr (xs : List Json)
  | obj (fields : List (String × Json))
  deriving Repr

/-- The struct `nix.FlakeMetadata`: the two fields `GetFlakeMetadata` decodes
from `nix flake metadata --json` output (JSON tags `lastModified` and
`originalUrl`). -/
structure FlakeMetadata where
  LastModified : Int
  OriginalUrl : String
  deriving Repr, DecidableEq

/-- ASCII case folding of a JSON object key, as `encoding/json` folds names
when matching keys to struct fields case-insensitively. -/
def foldKey (s : String) : List Char := s.data.map Char.toLower

/-- Whether object key `k` selects the struct field with JSON tag `tag`:
`encoding/json` prefers an exact match but also accepts a case-insensitive
match.  The two tags of `FlakeMetadata` stay distinct after folding, so a key
selects at most one field and exact-match preference cannot change the
outcome. -/
def matchesTag (tag k : String) : Bool := foldKey k == foldKey tag

/-- One step of `json.Unmarshal` over the fields of the top-level object in
input order, threading the partially decoded struct and an error flag: a key
selecting `lastModified` takes a JSON number, a key selecting `originalUrl`
takes a JSON string, JSON `null` is a no-op leaving the prior value, a
mismatched value type sets the error flag (`Unmarshal` saves the error and
keeps decoding), and unknown keys are skipped. -/
def unmarshalStep (st : FlakeMetadata × Bool) (kv : String × Json) : FlakeMetadata × Bool :=
  if matchesTag "lastModified" kv.1 then
    match kv.2 with
    | Json.null => st
    | Json.num n => ({ st.1 with LastModified := n }, st.2)
    | _ => (st.1, true)
  else if matchesTag "originalUrl" kv.1 then
    match kv.2 with
    | Json.null => st
    | Json.str s => ({ st.1 with OriginalUrl := s }, st.2)
    | _ => (st.1, true)
  else
    st

/-- The call `json.Unmarshal(output, &metadata)` for the `FlakeMetadata`
struct.  A top-level JSON `null` is a no-op leaving the zero struct; a JSON
object is decoded key by key in input order starting from the zero struct
(so a duplicated key keeps the last non-null occurrence); any other top level
is a type error.  `none` models `Unmarshal` returning a non-nil error. -/
def unmarshalFlakeMetadata : Json → Option FlakeMetadata
  | Json.null => some { LastModified := 0, OriginalUrl := "" }
  | Json.obj fields =>
    let r := fields.foldl unmarshalStep ({ LastModified := 0, OriginalUrl := "" }, false)
    if r.2 then none else some r.1
  | _ => none

/-- Outcome of running `nix flake metadata <flake> --json` via `cmd.Output()`:
either the command fails (nonzero exit / not runnable), or it succeeds with
some stdout, where `none` models stdout that is not well-formed JSON. -/
inductive ExecOutcome where
  | execErr
  | output (o : Option Json)
  deriving Repr

/-- Result of `nix.GetFlakeMetadata`: the function panics (terminating the
run) on a command failure or on an undecodable output, and otherwise returns
the decoded metadata. -/
inductive MetaResult where
  | panicExec
  | panicParse
  | ok (m : FlakeMetadata)
  deriving Repr, DecidableEq

/-- The function `nix.GetFlakeMetadata`, given the outcome of the external
command for its flake argument: an error from `cmd.Output()` is a panic
(ExecutionError); an error from `json.Unmarshal` is a panic (ParseError);
otherwise it returns the decoded `FlakeMetadata`. -/
def GetFlakeMetadata (res : ExecOutcome) : MetaResult :=
  match res with
  | ExecOutcome.execErr => MetaResult.panicExec
  | ExecOutcome.output none => MetaResult.panicParse
  | ExecOutcome.output (some j) =>
    match unmarshalFlakeMetadata j with
    | none => MetaResult.panicParse
    | some m => MetaResult.ok m

/-- The struct `hydra.Build` as used by `cmd/root.go`: `Finished` and
`BuildStatus` are integers in the Hydra API (`Finished == 1` means finished,
`BuildStatus == 0` means success). -/
structure Build where
  Finished : Int
  BuildStatus : Int
  deriving Repr, DecidableEq

/-- The evaluation object as used by `cmd/root.go`: the flake reference
produced by the Hydra evaluation. -/
structure Evaluation where
  Flake : String
  deriving Repr, DecidableEq

/-- The validated configuration fields read by the `Run` closure in
`cmd/root.go`: `conf.HealthCheck.CanaryHosts`, the `conf.NixOSRebuild` fields
`Operation`, `Host` and `Args`, and `conf.Reboot`.  (The Hydra coordinates
only parameterize the oracle.) -/
structure Config where
  CanaryHosts : List String
  Operation : String
  Host : String
  Args : List String
  Reboot : Bool
  deriving Repr

/-- One external call performed by the run, in order. -/
inductive Event where
  | getLatestBuild
  | getEval
  | getMetadata (flake : String)
  | ping (host : String)
  | nixosRebuild (op : String) (flakeSpec : String) (args : List String)
  | reboot
  deriving Repr, DecidableEq

/-- Modelled from the spec: the collaborators not present under `src/` — the
Hydra client (`GetLatestBuild`, `GetEval`), `healthcheck.Ping`,
`nix.NixosRebuild` and `nix.Reboot` — are reduced to an oracle recording what
each would answer.  Per the spec every failure of these calls is fatal:
`latestBuild = none` and `evalOf _ = none` model a fatal failure inside the
Hydra client; `exec` gives the subprocess outcome `GetFlakeMetadata` sees for
each flake reference; `pingOk` tells whether `healthcheck.Ping` returns a nil
error for a host; `rebuildOk` tells whether `nix.NixosRebuild` succeeds
(ExecutionError on nonzero exit from the upgrade tool is fatal). -/
structure Env where
  latestBuild : Option Build
  evalOf : Build → Option Evaluation
  exec : String → ExecOutcome
  pingOk : String → Bool
  rebuildOk : Bool

/-- Terminal outcome of a run, carrying what the exit path reports.
`noopUnfinished` and `noopUpToDate` are `os.Exit(0)`; `failBuildStatus` and
`failHealth` are `os.Exit(1)` logging the status / host; `success` is a normal
return (exit 0); `fatal` is a panic from a failed external call (nonzero). -/
inductive Outcome where
  | noopUnfinished
  | failBuildStatus (status : Int)
  | noopUpToDate
  | failHealth (host : String)
  | success
  | fatal
  deriving Repr, DecidableEq

/-- Process exit code of each terminal outcome (a Go panic exits with 2). -/
def exitCode : Outcome → Nat
  | Outcome.noopUnfinished => 0
  | Outcome.failBuildStatus _ => 1
  | Outcome.noopUpToDate => 0
  | Outcome.failHealth _ => 1
  | Outcome.success => 0
  | Outcome.fatal => 2

/-- The health-check loop of `cmd/root.go` (lines 96–102): probe each canary
host in list order; on the first host whose `Ping` fails, stop.  Returns the
probes performed (in order) and the failing host, if any. -/
def healthCheckLoop (pingOk : String → Bool) : List String → List Event × Option String
  | [] => ([], none)
  | h :: hs =>
    if pingOk h then
      let r := healthCheckLoop pingOk hs
      (Event.ping h :: r.1, r.2)
    else
      ([Event.ping h], some h)

/-- The external calls made before the freshness comparison once both metadata
fetches succeed. -/
def preEvents (flake : String) : List Event :=
  [Event.getLatestBuild, Event.getEval, Event.getMetadata "self", Event.getMetadata flake]

/-- The resolved upgrade target, from `cmd/root.go` line 93:
`fmt.Sprintf` with format `%s#%s` applied to `hydraMetadata.OriginalUrl` and
`conf.NixOSRebuild.Host`. -/
def resolveFlakeSpec (m : FlakeMetadata) (host : String) : String :=
  m.OriginalUrl ++ "#" ++ host

/-- The `Run` closure of `NewRootCmd` in `cmd/root.go` lines 72–111, as the
ordered list of external calls it performs and its terminal outcome:
fetch the latest build; exit 0 if `Finished != 1`; exit 1 if
`BuildStatus != 0`; fetch the eval and both flake metadata (a panic inside
`GetFlakeMetadata` is fatal); exit 0 if `self.LastModified >=
hydra.LastModified`; probe the canary hosts in order, exiting 1 on the first
failure; run `nixos-rebuild` (failure is fatal); reboot if configured. -/
def run (conf : Config) (env : Env) : List Event × Outcome :=
  match env.latestBuild with
  | none => ([Event.getLatestBuild], Outcome.fatal)
  | some build =>
    if build.Finished ≠ 1 then
      ([Event.getLatestBuild], Outcome.noopUnfinished)
    else if build.BuildStatus ≠ 0 then
      ([Event.getLatestBuild], Outcome.failBuildStatus build.BuildStatus)
    else
      match env.evalOf build with
      | none => ([Event.getLatestBuild, Event.getEval], Outcome.fatal)
      | some eval =>
        match GetFlakeMetadata (env.exec "self") with
        | MetaResult.ok selfMetadata =>
          match GetFlakeMetadata (env.exec eval.Flake) with
          | MetaResult.ok hydraMetadata =>
            if selfMetadata.LastModified ≥ hydraMetadata.LastModified then
              (preEvents eval.Flake, Outcome.noopUpToDate)
            else
              let flakeSpec := resolveFlakeSpec hydraMetadata conf.Host
              let hc := healthCheckLoop env.pingOk conf.CanaryHosts
              match hc.2 with
              | some h => (preEvents eval.Flake ++ hc.1, Outcome.failHealth h)
              | none =>
                let evs := preEvents eval.Flake ++ hc.1 ++
                  [Event.nixosRebuild conf.Operation flakeSpec conf.Args]
                if env.rebuildOk then
                  if conf.Reboot then
                    (evs ++ [Event.reboot], Outcome.success)
                  else
                    (evs, Outcome.success)
                else
                  (evs, Outcome.fatal)
          | _ => (preEvents eval.Flake, Outcome.fatal)
        | _ => ([Event.getLatestBuild, Event.getEval, Event.getMetadata "self"], Outcome.fatal)

/-- Recognizer for the upgrade invocation among events. -/
def Event.isRebuild : Event → Bool
  | Event.nixosRebuild _ _ _ => true
  | _ => false

/-! ### Helper lemmas about the health-check loop -/

/-- Every event emitted by the health-check loop is a probe. -/
theorem healthCheckLoop_events_ping (pingOk : String → Bool) :
    ∀ hosts : List String, ∀ e ∈ (healthCheckLoop pingOk hosts).1, ∃ h, e = Event.ping h := by
  intro hosts
  induction hosts with
  | nil => intro e he; simp [healthCheckLoop] at he
  | cons h hs ih =>
    intro e he
    by_cases hp : pingOk h
    · simp only [healthCheckLoop, hp, if_true, List.mem_cons] at he
      rcases he with rfl | he
      · exact ⟨h, rfl⟩
      · exact ih e he
    · simp only [healthCheckLoop, hp] at he
      simp at he
      exact ⟨h, he⟩

/-- If the loop finishes without a failing host, every configured host passed
its probe. -/
theorem healthCheckLoop_none_all_pass (pingOk : String → Bool) :
    ∀ hosts : List String, (healthCheckLoop pingOk hosts).2 = none →
      ∀ h ∈ hosts, pingOk h = true := by
  intro hosts
  induction hosts with
  | nil => intro _ h hh; simp at hh
  | cons a hs ih =>
    intro hnone h hh
    by_cases hp : pingOk a
    · simp only [healthCheckLoop, hp, if_true] at hnone
      rcases List.mem_cons.mp hh with rfl | hh
      · exact hp
      · exact ih hnone h hh
    · simp [healthCheckLoop, hp] at hnone

/-- Fail-fast shape of the loop: with passing hosts `l1` followed by a failing
host `b`, the probes performed are exactly `l1` then `b`, the reported host is
`b`, and nothing after `b` is probed. -/
theorem healthCheckLoop_fail_fast (pingOk : String → Bool) (b : String)
    (l2 : List String) (hb : pingOk b = false) :
    ∀ l1 : List String, (∀ h ∈ l1, pingOk h = true) →
      healthCheckLoop pingOk (l1 ++ b :: l2) =
        (l1.map Event.ping ++ [Event.ping b], some b) := by
  intro l1
  induction l1 with
  | nil => intro _; simp [healthCheckLoop, hb]
  | cons a l1 ih =>
    intro hpass
    have ha : pingOk a = true := hpass a (List.mem_cons_self a l1)
    have hrest := ih (fun h hh => hpass h (List.mem_cons_of_mem a hh))
    simp [List.cons_append, healthCheckLoop, ha, hrest]

/-! ### Helper lemmas about the run -/

/-- Reduction of the run on any input that passes both build checks and both
metadata fetches and whose target is strictly newer. -/
theorem run_good (conf : Config) (env : Env) (build : Build) (eval : Evaluation)
    (sm hm : FlakeMetadata)
    (hb : env.latestBuild = some build) (hf : build.Finished = 1)
    (hst : build.BuildStatus = 0) (he : env.evalOf build = some eval)
    (hsm : GetFlakeMetadata (env.exec "self") = MetaResult.ok sm)
    (hhm : GetFlakeMetadata (env.exec eval.Flake) = MetaResult.ok hm)
    (hfresh : sm.LastModified < hm.LastModified) :
    run conf env =
      match (healthCheckLoop env.pingOk conf.CanaryHosts).2 with
      | some h =>
        (preEvents eval.Flake ++ (healthCheckLoop env.pingOk conf.CanaryHosts).1,
          Outcome.failHealth h)
      | none =>
        if env.rebuildOk then
          if conf.Reboot then
            (preEvents eval.Flake ++ (healthCheckLoop env.pingOk conf.CanaryHosts).1 ++
              [Event.nixosRebuild conf.Operation (resolveFlakeSpec hm conf.Host) conf.Args] ++
              [Event.reboot], Outcome.success)
          else
            (preEvents eval.Flake ++ (healthCheckLoop env.pingOk conf.CanaryHosts).1 ++
              [Event.nixosRebuild conf.Operation (resolveFlakeSpec hm conf.Host) conf.Args],
              Outcome.success)
        else
          (preEvents eval.Flake ++ (healthCheckLoop env.pingOk conf.CanaryHosts).1 ++
            [Event.nixosRebuild conf.Operation (resolveFlakeSpec hm conf.Host) conf.Args],
            Outcome.fatal) := by
  have hge : ¬ sm.LastModified ≥ hm.LastModified := not_le.mpr hfresh
  simp only [run, hb, hf, hst, he, hsm, hhm, hge, if_false, ne_eq, not_true_eq_false,
    not_false_eq_true, ite_false, ite_true]

/-- Reduction of the run on any input that passes both build checks and both
metadata fetches and whose target is not strictly newer. -/
theorem run_uptodate (conf : Config) (env : Env) (build : Build) (eval : Evaluation)
    (sm hm : FlakeMetadata)
    (hb : env.latestBuild = some build) (hf : build.Finished = 1)
    (hst : build.BuildStatus = 0) (he : env.evalOf build = some eval)
    (hsm : GetFlakeMetadata (env.exec "self") = MetaResult.ok sm)
    (hhm : GetFlakeMetadata (env.exec eval.Flake) = MetaResult.ok hm)
    (hfresh : hm.LastModified ≤ sm.LastModified) :
    run conf env = (preEvents eval.Flake, Outcome.noopUpToDate) := by
  have hge : sm.LastModified ≥ hm.LastModified := hfresh
  simp only [run, hb, hf, hst, he, hsm, hhm, hge, if_true, ne_eq, not_true_eq_false,
    not_false_eq_true, ite_false, ite_true]

/-- The health-check loop emits no upgrade invocation. -/
theorem healthCheckLoop_no_rebuild (pingOk : String → Bool) (hosts : List String)
    (op fs : String) (args : List String) :
    Event.nixosRebuild op fs args ∉ (healthCheckLoop pingOk hosts).1 := by
  intro hmem
  rcases healthCheckLoop_events_ping pingOk hosts _ hmem with ⟨h, hh⟩
  exact Event.noConfusion hh

/-- The health-check loop emits no reboot. -/
theorem healthCheckLoop_no_reboot (pingOk : String → Bool) (hosts : List String) :
    Event.reboot ∉ (healthCheckLoop pingOk hosts).1 := by
  intro hmem
  rcases healthCheckLoop_events_ping pingOk hosts _ hmem with ⟨h, hh⟩
  exact Event.noConfusion hh

/-- Exhaustive case analysis of the run: every execution is one of the nine
terminal shapes, each recording the oracle facts that select it. -/
theorem run_cases (conf : Config) (env : Env) :
    (env.latestBuild = none ∧ run conf env = ([Event.getLatestBuild], Outcome.fatal)) ∨
    (∃ build, env.latestBuild = some build ∧ build.Finished ≠ 1 ∧
      run conf env = ([Event.getLatestBuild], Outcome.noopUnfinished)) ∨
    (∃ build, env.latestBuild = some build ∧ build.Finished = 1 ∧ build.BuildStatus ≠ 0 ∧
      run conf env = ([Event.getLatestBuild], Outcome.failBuildStatus build.BuildStatus)) ∨
    (∃ build, env.latestBuild = some build ∧ build.Finished = 1 ∧ build.BuildStatus = 0 ∧
      env.evalOf build = none ∧
      run conf env = ([Event.getLatestBuild, Event.getEval], Outcome.fatal)) ∨
    (∃ build eval, env.latestBuild = some build ∧ build.Finished = 1 ∧
      build.BuildStatus = 0 ∧ env.evalOf build = some eval ∧
      (∀ m, GetFlakeMetadata (env.exec "self") ≠ MetaResult.ok m) ∧
      run conf env =
        ([Event.getLatestBuild, Event.getEval, Event.getMetadata "self"], Outcome.fatal)) ∨
    (∃ build eval sm, env.latestBuild = some build ∧ build.Finished = 1 ∧
      build.BuildStatus = 0 ∧ env.evalOf build = some eval ∧
      GetFlakeMetadata (env.exec "self") = MetaResult.ok sm ∧
      (∀ m, GetFlakeMetadata (env.exec eval.Flake) ≠ MetaResult.ok m) ∧
      run conf env = (preEvents eval.Flake, Outcome.fatal)) ∨
    (∃ build eval sm hm, env.latestBuild = some build ∧ build.Finished = 1 ∧
      build.BuildStatus = 0 ∧ env.evalOf build = some eval ∧
      GetFlakeMetadata (env.exec "self") = MetaResult.ok sm ∧
      GetFlakeMetadata (env.exec eval.Flake) = MetaResult.ok hm ∧
      hm.LastModified ≤ sm.LastModified ∧
      run conf env = (preEvents eval.Flake, Outcome.noopUpToDate)) ∨
    (∃ build eval sm hm h, env.latestBuild = some build ∧ build.Finished = 1 ∧
      build.BuildStatus = 0 ∧ env.evalOf build = some eval ∧
      GetFlakeMetadata (env.exec "self") = MetaResult.ok sm ∧
      GetFlakeMetadata (env.exec eval.Flake) = MetaResult.ok hm ∧
      sm.LastModified < hm.LastModified ∧
      (healthCheckLoop env.pingOk conf.CanaryHosts).2 = some h ∧
      run conf env =
        (preEvents eval.Flake ++ (healthCheckLoop env.pingOk conf.CanaryHosts).1,
          Outcome.failHealth h)) ∨
    (∃ build eval sm hm, env.latestBuild = some build ∧ build.Finished = 1 ∧
      build.BuildStatus = 0 ∧ env.evalOf build = some eval ∧
      GetFlakeMetadata (env.exec "self") = MetaResult.ok sm ∧
      GetFlakeMetadata (env.exec eval.Flake) = MetaResult.ok hm ∧
      sm.LastModified < hm.LastModified ∧
      (healthCheckLoop env.pingOk conf.CanaryHosts).2 = none ∧
      run conf env =
        (preEvents eval.Flake ++ (healthCheckLoop env.pingOk conf.CanaryHosts).1 ++
          [Event.nixosRebuild conf.Operation (resolveFlakeSpec hm conf.Host) conf.Args] ++
          (if env.rebuildOk && conf.Reboot then [Event.reboot] else []),
          if env.rebuildOk then Outcome.success else Outcome.fatal)) := by
  rcases hb : env.latestBuild with _ | build
  · exact Or.inl ⟨rfl, by simp [run, hb]⟩
  by_cases hf : build.Finished = 1
  swap
  · exact Or.inr (Or.inl ⟨build, rfl, hf, by simp [run, hb, hf]⟩)
  by_cases hst : build.BuildStatus = 0
  swap
  · exact Or.inr (Or.inr (Or.inl ⟨build, rfl, hf, hst, by simp [run, hb, hf, hst]⟩))
  rcases he : env.evalOf build with _ | eval
  · exact Or.inr (Or.inr (Or.inr (Or.inl ⟨build, rfl, hf, hst, he,
      by simp [run, hb, hf, hst, he]⟩)))
  rcases hsm : GetFlakeMetadata (env.exec "self") with _ | _ | sm
  · refine Or.inr (Or.inr (Or.inr (Or.inr (Or.inl
      ⟨build, eval, rfl, hf, hst, he, ?_, by simp [run, hb, hf, hst, he, hsm]⟩))))
    exact fun m hm => MetaResult.noConfusion hm
  · refine Or.inr (Or.inr (Or.inr (Or.inr (Or.inl
      ⟨build, eval, rfl, hf, hst, he, ?_, by simp [run, hb, hf, hst, he, hsm]⟩))))
    exact fun m hm => MetaResult.noConfusion hm
  rcases hhm : GetFlakeMetadata (env.exec eval.Flake) with _ | _ | hm
  · refine Or.inr (Or.inr (Or.inr (Or.inr (Or.inr (Or.inl
      ⟨build, eval, sm, rfl, hf, hst, he, rfl, ?_,
        by simp [run, hb, hf, hst, he, hsm, hhm]⟩)))))
    intro m h2; rw [hhm] at h2; exact MetaResult.noConfusion h2
  · refine Or.inr (Or.inr (Or.inr (Or.inr (Or.inr (Or.inl
      ⟨build, eval, sm, rfl, hf, hst, he, rfl, ?_,
        by simp [run, hb, hf, hst, he, hsm, hhm]⟩)))))
    intro m h2; rw [hhm] at h2; exact MetaResult.noConfusion h2
  by_cases hfr : sm.LastModified < hm.LastModified
  swap
  · exact Or.inr (Or.inr (Or.inr (Or.inr (Or.inr (Or.inr (Or.inl
      ⟨build, eval, sm, hm, rfl, hf, hst, he, rfl, hhm, not_lt.mp hfr,
        run_uptodate conf env build eval sm hm hb hf hst he hsm hhm (not_lt.mp hfr)⟩))))))
  have hrg := run_good conf env build eval sm hm hb hf hst he hsm hhm hfr
  rcases hhc : (healthCheckLoop env.pingOk conf.CanaryHosts).2 with _ | h
  · refine Or.inr (Or.inr (Or.inr (Or.inr (Or.inr (Or.inr (Or.inr (Or.inr
      ⟨build, eval, sm, hm, rfl, hf, hst, he, rfl, hhm, hfr, rfl, ?_⟩)))))))
    rw [hrg, hhc]
    rcases hro : env.rebuildOk with _ | _ <;> rcases hrb : conf.Reboot with _ | _ <;> simp
  · refine Or.inr (Or.inr (Or.inr (Or.inr (Or.inr (Or.inr (Or.inr (Or.inl
      ⟨build, eval, sm, hm, h, rfl, hf, hst, he, rfl, hhm, hfr, rfl, ?_⟩)))))))
    rw [hrg, hhc]

/-- The health-check loop contributes nothing to the count of upgrade
invocations. -/
theorem healthCheckLoop_filter_isRebuild (pingOk : String → Bool) (hosts : List String) :
    ((healthCheckLoop pingOk hosts).1.filter Event.isRebuild) = [] := by
  rw [List.filter_eq_nil_iff]
  intro a ha
  rcases healthCheckLoop_events_ping pingOk hosts a ha with ⟨h, rfl⟩
  simp [Event.isRebuild]

/-! ### Concrete sample configurations and environments -/

/-- A sample configuration: one canary host, no reboot. -/
def confBase : Config :=
  { CanaryHosts := ["host1"], Operation := "switch", Host := "myhost",
    Args := [], Reboot := false }

/-- The sample configuration with the reboot flag set. -/
def confReboot : Config := { confBase with Reboot := true }

/-- The sample configuration with three canary hosts, of which the middle one
will fail its probe. -/
def confCanary : Config := { confBase with CanaryHosts := ["a", "bad", "c"] }

/-- Sample `nix flake metadata --json` output for the running system. -/
def selfJson : Json :=
  Json.obj [("lastModified", Json.num 100),
    ("originalUrl", Json.str "git+https://example.com/self")]

/-- Sample `nix flake metadata --json` output for the Hydra candidate. -/
def hydraJson : Json :=
  Json.obj [("lastModified", Json.num 200),
    ("originalUrl", Json.str "github:example/cfg")]

/-- A healthy environment: finished successful build, decodable metadata with
a strictly newer target, all probes passing, the upgrade succeeding. -/
def envGood : Env :=
  { latestBuild := some { Finished := 1, BuildStatus := 0 }
    evalOf := fun _ => some { Flake := "github:example/cfg/abc" }
    exec := fun r => if r = "self" then ExecOutcome.output (some selfJson)
      else ExecOutcome.output (some hydraJson)
    pingOk := fun _ => true
    rebuildOk := true }

/-- The healthy environment, but the latest build is unfinished. -/
def envUnfinished : Env :=
  { envGood with latestBuild := some { Finished := 0, BuildStatus := 0 } }

/-- The healthy environment, but the Hydra `finished` field holds `2`. -/
def envFinished2 : Env :=
  { envGood with latestBuild := some { Finished := 2, BuildStatus := 0 } }

/-- The healthy environment, but the latest build finished with a failure
status. -/
def envFailedBuild : Env :=
  { envGood with latestBuild := some { Finished := 1, BuildStatus := 1 } }

/-- The healthy environment, but both metadata fetches return the same
timestamp. -/
def envStale : Env :=
  { envGood with exec := fun _ => ExecOutcome.output (some selfJson) }

/-- The healthy environment, but the probe of host `bad` fails. -/
def envBadPing : Env :=
  { envGood with pingOk := fun h => !(h == "bad") }

/-! ### Claims -/

/-- C1: for every run that reaches the freshness comparison, the comparison is
strict: if the target timestamp is less than or equal to the self timestamp
the run ends in the up-to-date no-op with exit code 0 and the upgrade is never
invoked; only when the target timestamp is strictly greater does the run
proceed to the health gate. -/
theorem C1_freshness_comparison_strict (conf : Config) (env : Env) (build : Build)
    (eval : Evaluation) (sm hm : FlakeMetadata)
    (hb : env.latestBuild = some build) (hf : build.Finished = 1)
    (hst : build.BuildStatus = 0) (he : env.evalOf build = some eval)
    (hsm : GetFlakeMetadata (env.exec "self") = MetaResult.ok sm)
    (hhm : GetFlakeMetadata (env.exec eval.Flake) = MetaResult.ok hm) :
    (hm.LastModified ≤ sm.LastModified →
      run conf env = (preEvents eval.Flake, Outcome.noopUpToDate) ∧
      exitCode (run conf env).2 = 0 ∧
      ∀ op fs args, Event.nixosRebuild op fs args ∉ (run conf env).1) ∧
    (sm.LastModified < hm.LastModified →
      (∃ rest, (run conf env).1 =
        preEvents eval.Flake ++ (healthCheckLoop env.pingOk conf.CanaryHosts).1 ++ rest) ∧
      (run conf env).2 ≠ Outcome.noopUpToDate) := by
  constructor
  · intro hle
    have hr := run_uptodate conf env build eval sm hm hb hf hst he hsm hhm hle
    refine ⟨hr, by rw [hr]; rfl, ?_⟩
    intro op fs args hmem
    rw [hr] at hmem
    simp [preEvents] at hmem
  · intro hlt
    have hr := run_good conf env build eval sm hm hb hf hst he hsm hhm hlt
    rcases hhc : (healthCheckLoop env.pingOk conf.CanaryHosts).2 with _ | h
    · rw [hhc] at hr
      have h1 : (run conf env).1 =
          preEvents eval.Flake ++ (healthCheckLoop env.pingOk conf.CanaryHosts).1 ++
            ([Event.nixosRebuild conf.Operation (resolveFlakeSpec hm conf.Host) conf.Args] ++
              (if env.rebuildOk && conf.Reboot then [Event.reboot] else [])) := by
        rw [hr]
        rcases hro : env.rebuildOk with _ | _ <;> rcases hrb : conf.Reboot with _ | _ <;>
          simp [hro, hrb]
      have h2 : (run conf env).2 ≠ Outcome.noopUpToDate := by
        rw [hr]
        rcases hro : env.rebuildOk with _ | _ <;> rcases hrb : conf.Reboot with _ | _ <;>
          simp [hro, hrb]
      exact ⟨⟨_, h1⟩, h2⟩
    · rw [hhc] at hr
      exact ⟨⟨[], by rw [hr]; simp⟩, by rw [hr]; simp⟩

/-- C1 witness: in the healthy sample environment the target is strictly
newer, so the run proceeds past the comparison to the health gate. -/
theorem C1_freshness_comparison_strict_witness :
    (∃ rest, (run confBase envGood).1 =
      preEvents "github:example/cfg/abc" ++
        (healthCheckLoop envGood.pingOk confBase.CanaryHosts).1 ++ rest) ∧
    (run confBase envGood).2 ≠ Outcome.noopUpToDate :=
  (C1_freshness_comparison_strict confBase envGood
    { Finished := 1, BuildStatus := 0 } { Flake := "github:example/cfg/abc" }
    { LastModified := 100, OriginalUrl := "git+https://example.com/self" }
    { LastModified := 200, OriginalUrl := "github:example/cfg" }
    rfl rfl rfl rfl rfl rfl).2 (by decide)

/-- C5: for every build whose completion flag is unset, the run ends in the
unfinished no-op with exit code 0, performing no evaluation query, no metadata
fetch, no probe and no upgrade after the completion check. -/
theorem C5_unfinished_build_is_silent_noop (conf : Config) (env : Env) (build : Build)
    (hb : env.latestBuild = some build) (hf : build.Finished = 0) :
    run conf env = ([Event.getLatestBuild], Outcome.noopUnfinished) ∧
    exitCode (run conf env).2 = 0 ∧
    Event.getEval ∉ (run conf env).1 ∧
    (∀ r, Event.getMetadata r ∉ (run conf env).1) ∧
    (∀ h, Event.ping h ∉ (run conf env).1) ∧
    (∀ op fs args, Event.nixosRebuild op fs args ∉ (run conf env).1) := by
  have hr : run conf env = ([Event.getLatestBuild], Outcome.noopUnfinished) := by
    simp [run, hb, hf]
  refine ⟨hr, by rw [hr]; rfl, ?_, ?_, ?_, ?_⟩ <;> rw [hr] <;> simp

/-- C5 witness: an unfinished sample build yields the silent no-op. -/
theorem C5_unfinished_build_is_silent_noop_witness :
    run confBase envUnfinished = ([Event.getLatestBuild], Outcome.noopUnfinished) ∧
    exitCode (run confBase envUnfinished).2 = 0 ∧
    Event.getEval ∉ (run confBase envUnfinished).1 ∧
    (∀ r, Event.getMetadata r ∉ (run confBase envUnfinished).1) ∧
    (∀ h, Event.ping h ∉ (run confBase envUnfinished).1) ∧
    (∀ op fs args, Event.nixosRebuild op fs args ∉ (run confBase envUnfinished).1) :=
  C5_unfinished_build_is_silent_noop confBase envUnfinished
    { Finished := 0, BuildStatus := 0 } rfl rfl

/-- C6: for every finished build with a nonzero status code, the run ends in
the failure exit reporting that status, with a nonzero exit code and no
further external calls beyond the status check. -/
theorem C6_failed_build_stops_run (conf : Config) (env : Env) (build : Build)
    (hb : env.latestBuild = some build) (hf : build.Finished = 1)
    (hst : build.BuildStatus ≠ 0) :
    run conf env = ([Event.getLatestBuild], Outcome.failBuildStatus build.BuildStatus) ∧
    exitCode (run conf env).2 ≠ 0 ∧
    Event.getEval ∉ (run conf env).1 ∧
    (∀ r, Event.getMetadata r ∉ (run conf env).1) ∧
    (∀ h, Event.ping h ∉ (run conf env).1) ∧
    (∀ op fs args, Event.nixosRebuild op fs args ∉ (run conf env).1) := by
  have hr : run conf env = ([Event.getLatestBuild], Outcome.failBuildStatus build.BuildStatus) := by
    simp [run, hb, hf, hst]
  refine ⟨hr, by rw [hr]; simp [exitCode], ?_, ?_, ?_, ?_⟩ <;> rw [hr] <;> simp

/-- C6 witness: a finished sample build with status 1 ends in the failure
exit. -/
theorem C6_failed_build_stops_run_witness :
    run confBase envFailedBuild = ([Event.getLatestBuild], Outcome.failBuildStatus 1) ∧
    exitCode (run confBase envFailedBuild).2 ≠ 0 ∧
    Event.getEval ∉ (run confBase envFailedBuild).1 ∧
    (∀ r, Event.getMetadata r ∉ (run confBase envFailedBuild).1) ∧
    (∀ h, Event.ping h ∉ (run confBase envFailedBuild).1) ∧
    (∀ op fs args, Event.nixosRebuild op fs args ∉ (run confBase envFailedBuild).1) :=
  C6_failed_build_stops_run confBase envFailedBuild
    { Finished := 1, BuildStatus := 1 } rfl rfl (by decide)

/-- C10: the completion check treats exactly the value 1 of the `Finished`
field as finished; any other value, for example 2, ends the run in the
unfinished no-op with exit code 0. -/
theorem C10_finished_means_exactly_one (conf : Config) (env : Env) (build : Build)
    (hb : env.latestBuild = some build) (hf : build.Finished ≠ 1) :
    run conf env = ([Event.getLatestBuild], Outcome.noopUnfinished) ∧
    exitCode (run conf env).2 = 0 := by
  have hr : run conf env = ([Event.getLatestBuild], Outcome.noopUnfinished) := by
    simp [run, hb, hf]
  exact ⟨hr, by rw [hr]; rfl⟩

/-- C10 witness: a sample build with `Finished = 2` is treated as unfinished
and exits 0. -/
theorem C10_finished_means_exactly_one_witness :
    run confBase envFinished2 = ([Event.getLatestBuild], Outcome.noopUnfinished) ∧
    exitCode (run confBase envFinished2).2 = 0 :=
  C10_finished_means_exactly_one confBase envFinished2
    { Finished := 2, BuildStatus := 0 } rfl (by decide)

/-- C2: in every run the upgrade operation is invoked at most once, and only
after the completion check, the status check, the strict freshness comparison
and every configured canary probe have all passed. -/
theorem C2_execute_at_most_once_and_gated (conf : Config) (env : Env) :
    ((run conf env).1.filter Event.isRebuild).length ≤ 1 ∧
    (∀ op fs args, Event.nixosRebuild op fs args ∈ (run conf env).1 →
      ∃ build eval sm hm,
        env.latestBuild = some build ∧ build.Finished = 1 ∧ build.BuildStatus = 0 ∧
        env.evalOf build = some eval ∧
        GetFlakeMetadata (env.exec "self") = MetaResult.ok sm ∧
        GetFlakeMetadata (env.exec eval.Flake) = MetaResult.ok hm ∧
        sm.LastModified < hm.LastModified ∧
        ∀ h ∈ conf.CanaryHosts, env.pingOk h = true) := by
  rcases run_cases conf env with ⟨_, hr⟩ | ⟨b, hb, hf, hr⟩ | ⟨b, hb, hf, hst, hr⟩ |
    ⟨b, hb, hf, hst, he, hr⟩ | ⟨b, ev, hb, hf, hst, he, _, hr⟩ |
    ⟨b, ev, sm, hb, hf, hst, he, hsm, _, hr⟩ |
    ⟨b, ev, sm, hm, hb, hf, hst, he, hsm, hhm, hle, hr⟩ |
    ⟨b, ev, sm, hm, h, hb, hf, hst, he, hsm, hhm, hlt, hhc, hr⟩ |
    ⟨b, ev, sm, hm, hb, hf, hst, he, hsm, hhm, hlt, hhc, hr⟩ <;>
      rw [hr] <;> constructor
  case _ => simp [Event.isRebuild]
  case _ => intro op fs args hmem; simp at hmem
  case _ => simp [Event.isRebuild]
  case _ => intro op fs args hmem; simp at hmem
  case _ => simp [Event.isRebuild]
  case _ => intro op fs args hmem; simp at hmem
  case _ => simp [Event.isRebuild]
  case _ => intro op fs args hmem; simp at hmem
  case _ => simp [Event.isRebuild]
  case _ => intro op fs args hmem; simp at hmem
  case _ => simp [preEvents, Event.isRebuild]
  case _ => intro op fs args hmem; simp [preEvents] at hmem
  case _ => simp [preEvents, Event.isRebuild]
  case _ => intro op fs args hmem; simp [preEvents] at hmem
  case _ =>
    rw [List.filter_append, healthCheckLoop_filter_isRebuild]
    simp [preEvents, Event.isRebuild]
  case _ =>
    intro op fs args hmem
    rcases List.mem_append.mp hmem with hmem | hmem
    · simp [preEvents] at hmem
    · exact absurd hmem (healthCheckLoop_no_rebuild env.pingOk conf.CanaryHosts op fs args)
  case _ =>
    rw [List.filter_append, List.filter_append, List.filter_append,
      healthCheckLoop_filter_isRebuild]
    have hite : (if env.rebuildOk && conf.Reboot then [Event.reboot]
        else ([] : List Event)).filter Event.isRebuild = [] := by
      split <;> rfl
    rw [hite]
    simp [preEvents, Event.isRebuild]
  case _ =>
    intro op fs args hmem
    rcases List.mem_append.mp hmem with hmem | hmem
    swap
    · exfalso
      revert hmem
      split <;> simp
    rcases List.mem_append.mp hmem with hmem | hmem
    swap
    · refine ⟨b, ev, sm, hm, hb, hf, hst, he, hsm, hhm, hlt, ?_⟩
      exact healthCheckLoop_none_all_pass env.pingOk conf.CanaryHosts hhc
    rcases List.mem_append.mp hmem with hmem | hmem
    · simp [preEvents] at hmem
    · exact absurd hmem (healthCheckLoop_no_rebuild env.pingOk conf.CanaryHosts op fs args)

/-- C2 witness: the claim instantiated in the healthy sample run. -/
theorem C2_execute_at_most_once_and_gated_witness :
    ((run confBase envGood).1.filter Event.isRebuild).length ≤ 1 ∧
    (∀ op fs args, Event.nixosRebuild op fs args ∈ (run confBase envGood).1 →
      ∃ build eval sm hm,
        envGood.latestBuild = some build ∧ build.Finished = 1 ∧ build.BuildStatus = 0 ∧
        envGood.evalOf build = some eval ∧
        GetFlakeMetadata (envGood.exec "self") = MetaResult.ok sm ∧
        GetFlakeMetadata (envGood.exec eval.Flake) = MetaResult.ok hm ∧
        sm.LastModified < hm.LastModified ∧
        ∀ h ∈ confBase.CanaryHosts, envGood.pingOk h = true) :=
  C2_execute_at_most_once_and_gated confBase envGood

/-- C3: the health gate probes the canary hosts in list order and is
fail-fast: on the first failing host the run exits nonzero reporting that
host, and no host after it is ever probed; an empty canary list is vacuously
successful and the run proceeds to the upgrade step. -/
theorem C3_health_gate_fail_fast (conf : Config) (env : Env) (build : Build)
    (eval : Evaluation) (sm hm : FlakeMetadata)
    (hb : env.latestBuild = some build) (hf : build.Finished = 1)
    (hst : build.BuildStatus = 0) (he : env.evalOf build = some eval)
    (hsm : GetFlakeMetadata (env.exec "self") = MetaResult.ok sm)
    (hhm : GetFlakeMetadata (env.exec eval.Flake) = MetaResult.ok hm)
    (hfr : sm.LastModified < hm.LastModified) :
    (∀ l1 b l2, conf.CanaryHosts = l1 ++ b :: l2 →
      (∀ h ∈ l1, env.pingOk h = true) → env.pingOk b = false →
      run conf env =
        (preEvents eval.Flake ++ (l1.map Event.ping ++ [Event.ping b]),
          Outcome.failHealth b) ∧
      exitCode (run conf env).2 ≠ 0 ∧
      (∀ h, Event.ping h ∈ (run conf env).1 → h ∈ l1 ∨ h = b)) ∧
    (conf.CanaryHosts = [] →
      Event.nixosRebuild conf.Operation (resolveFlakeSpec hm conf.Host) conf.Args
        ∈ (run conf env).1) := by
  constructor
  · intro l1 b l2 hlist hpass hfail
    have hloop := healthCheckLoop_fail_fast env.pingOk b l2 hfail l1 hpass
    have hr := run_good conf env build eval sm hm hb hf hst he hsm hhm hfr
    rw [hlist, hloop] at hr
    have hr2 : run conf env =
        (preEvents eval.Flake ++ (l1.map Event.ping ++ [Event.ping b]),
          Outcome.failHealth b) := by rw [hr]
    refine ⟨hr2, by rw [hr2]; simp [exitCode], ?_⟩
    intro h hmem
    rw [hr2] at hmem
    simp [preEvents] at hmem
    tauto
  · intro hempty
    have hr := run_good conf env build eval sm hm hb hf hst he hsm hhm hfr
    have hloop : healthCheckLoop env.pingOk conf.CanaryHosts = ([], none) := by
      rw [hempty]; rfl
    rw [hloop] at hr
    rcases hro : env.rebuildOk with _ | _ <;> rcases hrb : conf.Reboot with _ | _ <;>
      simp [hro, hrb] at hr <;> rw [hr] <;> simp

/-- C3 witness: with canary hosts `a`, `bad`, `c` where `bad` fails, the run
reports `bad`, exits nonzero, and never probes `c`. -/
theorem C3_health_gate_fail_fast_witness :
    run confCanary envBadPing =
      (preEvents "github:example/cfg/abc" ++
        (["a"].map Event.ping ++ [Event.ping "bad"]), Outcome.failHealth "bad") ∧
    exitCode (run confCanary envBadPing).2 ≠ 0 ∧
    (∀ h, Event.ping h ∈ (run confCanary envBadPing).1 → h ∈ ["a"] ∨ h = "bad") :=
  (C3_health_gate_fail_fast confCanary envBadPing
    { Finished := 1, BuildStatus := 0 } { Flake := "github:example/cfg/abc" }
    { LastModified := 100, OriginalUrl := "git+https://example.com/self" }
    { LastModified := 200, OriginalUrl := "github:example/cfg" }
    rfl rfl rfl rfl rfl rfl (by decide)).1
    ["a"] "bad" ["c"] rfl (by decide) rfl

/-- C4: the reboot is invoked exactly when the upgrade was invoked and
succeeded and the reboot flag is set; on every other path it is never
invoked. -/
theorem C4_reboot_iff_success_and_flag (conf : Config) (env : Env) :
    Event.reboot ∈ (run conf env).1 ↔
      (conf.Reboot = true ∧ env.rebuildOk = true ∧
        ∃ op fs args, Event.nixosRebuild op fs args ∈ (run conf env).1) := by
  rcases run_cases conf env with ⟨_, hr⟩ | ⟨b, hb, hf, hr⟩ | ⟨b, hb, hf, hst, hr⟩ |
    ⟨b, hb, hf, hst, he, hr⟩ | ⟨b, ev, hb, hf, hst, he, _, hr⟩ |
    ⟨b, ev, sm, hb, hf, hst, he, hsm, _, hr⟩ |
    ⟨b, ev, sm, hm, hb, hf, hst, he, hsm, hhm, hle, hr⟩ |
    ⟨b, ev, sm, hm, h, hb, hf, hst, he, hsm, hhm, hlt, hhc, hr⟩ |
    ⟨b, ev, sm, hm, hb, hf, hst, he, hsm, hhm, hlt, hhc, hr⟩ <;> rw [hr]
  case _ => simp
  case _ => simp
  case _ => simp
  case _ => simp
  case _ => simp
  case _ => simp [preEvents]
  case _ => simp [preEvents]
  case _ =>
    constructor
    · intro hmem
      rcases List.mem_append.mp hmem with hmem | hmem
      · simp [preEvents] at hmem
      · exact absurd hmem (healthCheckLoop_no_reboot env.pingOk conf.CanaryHosts)
    · rintro ⟨-, -, op, fs, args, hmem⟩
      rcases List.mem_append.mp hmem with hmem | hmem
      · simp [preEvents] at hmem
      · exact absurd hmem (healthCheckLoop_no_rebuild env.pingOk conf.CanaryHosts op fs args)
  case _ =>
    constructor
    · intro hmem
      rcases List.mem_append.mp hmem with hmem | hmem
      · exfalso
        rcases List.mem_append.mp hmem with hmem | hmem
        · rcases List.mem_append.mp hmem with hmem | hmem
          · simp [preEvents] at hmem
          · exact absurd hmem (healthCheckLoop_no_reboot env.pingOk conf.CanaryHosts)
        · simp at hmem
      · have hcond : (env.rebuildOk && conf.Reboot) = true := by
          by_contra hcontra
          rw [if_neg] at hmem
          · simp at hmem
          · simpa using hcontra
        have hcond2 : env.rebuildOk = true ∧ conf.Reboot = true := by simpa using hcond
        rcases hcond2 with ⟨hro, hrb⟩
        exact ⟨hrb, hro, conf.Operation, resolveFlakeSpec hm conf.Host, conf.Args, by simp⟩
    · rintro ⟨hrb, hro, -, -, -, -⟩
      simp [hro, hrb]

/-- C4 witness: the claim instantiated in the healthy sample run with the
reboot flag set. -/
theorem C4_reboot_iff_success_and_flag_witness :
    Event.reboot ∈ (run confReboot envGood).1 ↔
      (confReboot.Reboot = true ∧ envGood.rebuildOk = true ∧
        ∃ op fs args, Event.nixosRebuild op fs args ∈ (run confReboot envGood).1) :=
  C4_reboot_iff_success_and_flag confReboot envGood

/-- C7: resolving the upgrade target is pure and total: every upgrade
invocation carries the configured operation and extra arguments, and its
flake reference is exactly the target metadata's original URL followed by
`#` and the configured host. -/
theorem C7_resolve_is_pure_concat (conf : Config) (env : Env) (op fs : String)
    (args : List String)
    (hmem : Event.nixosRebuild op fs args ∈ (run conf env).1) :
    op = conf.Operation ∧ args = conf.Args ∧
    ∃ build eval hm,
      env.latestBuild = some build ∧ env.evalOf build = some eval ∧
      GetFlakeMetadata (env.exec eval.Flake) = MetaResult.ok hm ∧
      fs = hm.OriginalUrl ++ "#" ++ conf.Host := by
  rcases run_cases conf env with ⟨_, hr⟩ | ⟨b, hb, hf, hr⟩ | ⟨b, hb, hf, hst, hr⟩ |
    ⟨b, hb, hf, hst, he, hr⟩ | ⟨b, ev, hb, hf, hst, he, _, hr⟩ |
    ⟨b, ev, sm, hb, hf, hst, he, hsm, _, hr⟩ |
    ⟨b, ev, sm, hm, hb, hf, hst, he, hsm, hhm, hle, hr⟩ |
    ⟨b, ev, sm, hm, h, hb, hf, hst, he, hsm, hhm, hlt, hhc, hr⟩ |
    ⟨b, ev, sm, hm, hb, hf, hst, he, hsm, hhm, hlt, hhc, hr⟩ <;> rw [hr] at hmem
  case _ => simp at hmem
  case _ => simp at hmem
  case _ => simp at hmem
  case _ => simp at hmem
  case _ => simp at hmem
  case _ => simp [preEvents] at hmem
  case _ => simp [preEvents] at hmem
  case _ =>
    exfalso
    rcases List.mem_append.mp hmem with hmem | hmem
    · simp [preEvents] at hmem
    · exact absurd hmem (healthCheckLoop_no_rebuild env.pingOk conf.CanaryHosts op fs args)
  case _ =>
    rcases List.mem_append.mp hmem with hmem | hmem
    swap
    · exfalso
      revert hmem
      split <;> simp
    rcases List.mem_append.mp hmem with hmem | hmem
    swap
    · rcases List.mem_singleton.mp hmem with heq
      injection heq with h1 h2 h3
      exact ⟨h1, h3, b, ev, hm, hb, he, hhm, by rw [h2]; rfl⟩
    exfalso
    rcases List.mem_append.mp hmem with hmem | hmem
    · simp [preEvents] at hmem
    · exact absurd hmem (healthCheckLoop_no_rebuild env.pingOk conf.CanaryHosts op fs args)

/-- C7 witness: in the healthy sample run the upgrade is invoked with the
configured operation, the configured extra arguments, and the reference
formed from the target URL, `#`, and the configured host. -/
theorem C7_resolve_is_pure_concat_witness :
    "switch" = confBase.Operation ∧ ([] : List String) = confBase.Args ∧
    ∃ build eval hm,
      envGood.latestBuild = some build ∧ envGood.evalOf build = some eval ∧
      GetFlakeMetadata (envGood.exec eval.Flake) = MetaResult.ok hm ∧
      "github:example/cfg#myhost" = hm.OriginalUrl ++ "#" ++ confBase.Host :=
  C7_resolve_is_pure_concat confBase envGood "switch" "github:example/cfg#myhost" []
    (by decide)

end NixosHydraUpgrade
